import Mathlib

/-!
Verification of the CloudSplit share-calculation and aggregation engine.

The definitions below are shallow embeddings of the TypeScript source:
* `calculateShareAmount` — utils/calculations.ts
* the cross-bill aggregation pipeline (`loadPaymentSummary`), the name-sorting
  comparator (`getFirstNumber`, `summaryCompare`), and payment reconciliation
  (`paymentReco` and the paid-amount handlers) — the PaymentSummary component
* the bill-save pipeline (`processSaveItems`, `saveBill`) — components/BillEditor.tsx
  `handleSave`
* bulk-import quantity expansion (`expandBatchItem`, `expandImportItem`) —
  components/BillEditor.tsx `handleBatchSave` / `handleImportJSON`

JavaScript numbers are modelled as rationals (`ℚ`); machine strings as `String`.
Definitions come first, then supporting lemmas, then the claim theorems.
-/

namespace CloudSplit

/-! ## Definitions -/

/-- utils/calculations.ts `calculateShareAmount`:
`if (shareCount === 0) return 0; return (unitPrice * discountRatio + discountAdjustment) / shareCount`.
The share count is a participant-list length, hence `ℕ`. -/
def calculateShareAmount (unitPrice : ℚ) (shareCount : ℕ)
    (discountRatio : ℚ := 1) (discountAdjustment : ℚ := 0) : ℚ :=
  if shareCount = 0 then 0
  else (unitPrice * discountRatio + discountAdjustment) / (shareCount : ℚ)

/-- JS `String.prototype.trim()`: strip leading and trailing whitespace. -/
def jsTrim (s : String) : String :=
  String.mk (((s.toList.dropWhile Char.isWhitespace).reverse.dropWhile
    Char.isWhitespace).reverse)

/-- One character of the uuid regex class `[0-9a-f]` under the `/i` flag. -/
def isHexChar (c : Char) : Bool :=
  c.isDigit || ('a' ≤ c && c ≤ 'f') || ('A' ≤ c && c ≤ 'F')

/-- JS `split('-')` at the character level. -/
def splitOnDash : List Char → List (List Char)
  | [] => [[]]
  | c :: rest =>
      let gs := splitOnDash rest
      if c = '-' then [] :: gs
      else
        match gs with
        | g :: tl => (c :: g) :: tl
        | [] => [[c]]

/-- `uuidRegex.test s` for
`/^[0-9a-f]{8}-[0-9a-f]{4}-[0-9a-f]{4}-[0-9a-f]{4}-[0-9a-f]{12}$/i`:
hex chars contain no `-`, so the test is equivalent to splitting on `-` into exactly
five all-hex groups of lengths 8, 4, 4, 4, 12. -/
def uuidRegexTest (s : String) : Bool :=
  match splitOnDash s.toList with
  | [a, b, c, d, e] =>
      a.length = 8 && b.length = 4 && c.length = 4 && d.length = 4 && e.length = 12 &&
      a.all isHexChar && b.all isHexChar && c.all isHexChar &&
      d.all isHexChar && e.all isHexChar
  | _ => false

/-- The id filter of `loadPaymentSummary`:
`if (!id || typeof id !== 'string' || id.trim().length === 0) return false; return uuidRegex.test(id.trim())`. -/
def validId (id : String) : Bool :=
  !(id = "") && !((jsTrim id).length = 0) && uuidRegexTest (jsTrim id)

/-- A `split_details` row as selected by the aggregation query. -/
structure SplitDetail where
  share_amount : ℚ
  participant_id : String
  bill_item_id : String
deriving Repr, DecidableEq

/-- A `bill_items` row as selected by the aggregation query. -/
structure ItemRow where
  id : String
  item_name : String
  bill_id : String
deriving Repr, DecidableEq

/-- A `bill_participants` row as selected by the aggregation query. -/
structure ParticipantRow where
  id : String
  name : String
deriving Repr, DecidableEq

/-- A `bills` row as selected by the aggregation query. -/
structure BillRow where
  id : String
  title : String
  bill_date : String
deriving Repr, DecidableEq

/-- `PaymentDetail` of the PaymentSummary component. -/
structure PaymentDetail where
  billId : String
  billTitle : String
  billDate : String
  itemName : String
  itemId : String
  shareAmount : ℚ
deriving Repr, DecidableEq

/-- `ParticipantSummary` of the PaymentSummary component. -/
structure ParticipantSummary where
  participantName : String
  totalAmount : ℚ
  details : List PaymentDetail
deriving Repr, DecidableEq

/-- `GroupedDetail` of the PaymentSummary component. -/
structure GroupedDetail where
  billId : String
  billTitle : String
  billDate : String
  items : List (String × String × ℚ)
  totalAmount : ℚ
deriving Repr, DecidableEq

/-- The backing tables the aggregation queries read from. -/
structure Env where
  itemsTable : List ItemRow
  participantsTable : List ParticipantRow
  billsTable : List BillRow
deriving Repr

/-- One step of the `participantMap` name-grouping loop: a JS `Map` keyed by
participant name, in insertion order; an existing entry gets `totalAmount += share`
and the detail pushed, otherwise a fresh entry is appended. -/
def upsertDetail (m : List ParticipantSummary) (nm : String) (d : PaymentDetail) :
    List ParticipantSummary :=
  match m with
  | [] => [⟨nm, d.shareAmount, [d]⟩]
  | s :: rest =>
      if s.participantName = nm then
        { s with totalAmount := s.totalAmount + d.shareAmount,
                 details := s.details ++ [d] } :: rest
      else s :: upsertDetail rest nm d

/-- The per-record lookups of the grouping loop: participant, then item, then bill;
any failed lookup makes the `forEach` body `return` (skip the record). -/
def resolveRecord (items : List ItemRow) (participants : List ParticipantRow)
    (bills : List BillRow) (s : SplitDetail) : Option (String × PaymentDetail) := do
  let participant ← participants.find? (fun p => p.id = s.participant_id)
  let item ← items.find? (fun i => i.id = s.bill_item_id)
  let bill ← bills.find? (fun b => b.id = item.bill_id)
  pure (participant.name,
    ⟨bill.id, bill.title, bill.bill_date, item.item_name, item.id, s.share_amount⟩)

/-- The `splitDetails.forEach` grouping loop. -/
def aggregateRecords (sd : List SplitDetail) (items : List ItemRow)
    (participants : List ParticipantRow) (bills : List BillRow) :
    List ParticipantSummary :=
  sd.foldl (fun m s =>
    match resolveRecord items participants bills s with
    | none => m
    | some (nm, d) => upsertDetail m nm d) []

/-- `parseInt` on a non-empty run of decimal digits. -/
def natOfDigits (cs : List Char) : ℕ :=
  cs.foldl (fun n c => n * 10 + (c.toNat - '0'.toNat)) 0

/-- The `^(\d+)\s*-` branch of `getFirstNumber`: leading digits, optional whitespace,
then a literal `-` separator. -/
def leadingNumber (s : String) : Option ℕ :=
  let cs := s.toList
  let digits := cs.takeWhile Char.isDigit
  if digits.isEmpty then none
  else
    match (cs.drop digits.length).dropWhile Char.isWhitespace with
    | '-' :: _ => some (natOfDigits digits)
    | _ => none

/-- The `\d+` fallback of `getFirstNumber`: the first maximal digit run anywhere. -/
def firstNumberAnywhere : List Char → Option ℕ
  | [] => none
  | c :: cs =>
      if c.isDigit then some (natOfDigits (c :: cs.takeWhile Char.isDigit))
      else firstNumberAnywhere cs

/-- `getFirstNumber` of the summaries sort; `none` plays the role of `Infinity`
(the `isNaN` guards are dead: `parseInt` of a non-empty digit run never yields `NaN`). -/
def getFirstNumber (s : String) : Option ℕ :=
  match leadingNumber s with
  | some n => some n
  | none => firstNumberAnywhere s.toList

/-- The `summariesArray.sort` comparator over participant names; `lc` stands for
`localeCompare(·, 'zh-TW')`, an opaque locale-aware three-way comparison. -/
def summaryCompare (lc : String → String → Int) (a b : String) : Int :=
  match getFirstNumber a, getFirstNumber b with
  | some m, some n => if (m : Int) - n ≠ 0 then (m : Int) - n else lc a b
  | some _, none => -1
  | none, some _ => 1
  | none, none => lc a b

/-- `Array.prototype.sort` with the summaries comparator (a stable sort placing `a`
before `b` whenever the comparator is non-positive). -/
def sortSummaries (lc : String → String → Int) (l : List ParticipantSummary) :
    List ParticipantSummary :=
  l.mergeSort (fun a b => summaryCompare lc a.participantName b.participantName ≤ 0)

/-- `[...new Set(l)]`: deduplication keeping the first occurrence of each element,
in encounter order (`seen` accumulates the elements already emitted). -/
def dedupAux (seen : List String) : List String → List String
  | [] => []
  | x :: xs => if seen.contains x then dedupAux seen xs else x :: dedupAux (x :: seen) xs

/-- `[...new Set(l)]` with an empty initial `Set`. -/
def jsSetDedup (l : List String) : List String :=
  dedupAux [] l

/-- The valid referenced item ids: `[...new Set(splitDetails.map(s => s.bill_item_id))]`
filtered by the uuid-format check. -/
def itemIdsOf (splitDetails : List SplitDetail) : List String :=
  (jsSetDedup (splitDetails.map (fun s => s.bill_item_id))).filter validId

/-- The valid referenced participant ids, analogously. -/
def participantIdsOf (splitDetails : List SplitDetail) : List String :=
  (jsSetDedup (splitDetails.map (fun s => s.participant_id))).filter validId

/-- The `bill_items` rows fetched by the batched `.in('id', itemIds)` queries: the union
of the batches is the table restricted to the requested id set. -/
def fetchedItems (env : Env) (splitDetails : List SplitDetail) : List ItemRow :=
  env.itemsTable.filter (fun i => (itemIdsOf splitDetails).contains i.id)

/-- The `bill_participants` rows fetched by the batched `.in('id', participantIds)` queries. -/
def fetchedParticipants (env : Env) (splitDetails : List SplitDetail) : List ParticipantRow :=
  env.participantsTable.filter (fun p => (participantIdsOf splitDetails).contains p.id)

/-- `[...new Set(items.map(i => i.bill_id))]` over the fetched items. -/
def billIdsOf (env : Env) (splitDetails : List SplitDetail) : List String :=
  jsSetDedup ((fetchedItems env splitDetails).map (fun i => i.bill_id))

/-- The `bills` rows fetched by the batched `.in('id', billIds)` queries. -/
def fetchedBills (env : Env) (splitDetails : List SplitDetail) : List BillRow :=
  env.billsTable.filter (fun b => (billIdsOf env splitDetails).contains b.id)

/-- The pure fetch-and-compute core of `loadPaymentSummary`: the early returns for an
empty `split_details` set and for empty valid-id sets; the uuid-format filtering of the
referenced ids; the batched fetches; the name-grouping loop; the comparator sort; and the
grand total `summariesArray.reduce((sum, s) => sum + s.totalAmount, 0)`.
(`parseFloat(split.share_amount.toString())` is the identity on a numeric share.) -/
def loadPaymentSummary (lc : String → String → Int) (splitDetails : List SplitDetail)
    (env : Env) : List ParticipantSummary × ℚ :=
  if splitDetails.isEmpty then ([], 0)
  else if (itemIdsOf splitDetails).isEmpty || (participantIdsOf splitDetails).isEmpty then
    ([], 0)
  else
    let sorted := sortSummaries lc
      (aggregateRecords splitDetails (fetchedItems env splitDetails)
        (fetchedParticipants env splitDetails) (fetchedBills env splitDetails))
    (sorted, (sorted.map (fun s => s.totalAmount)).sum)

/-- One step of the `groupedDetails` loop: a JS `Map` keyed by bill id, in insertion
order; an existing group gets the item pushed and its subtotal bumped, otherwise a fresh
group is appended. -/
def upsertGroup (d : PaymentDetail) : List GroupedDetail → List GroupedDetail
  | [] => [⟨d.billId, d.billTitle, d.billDate,
           [(d.itemName, d.itemId, d.shareAmount)], d.shareAmount⟩]
  | g :: rest =>
      if g.billId = d.billId then
        { g with items := g.items ++ [(d.itemName, d.itemId, d.shareAmount)],
                 totalAmount := g.totalAmount + d.shareAmount } :: rest
      else g :: upsertGroup d rest

/-- The grouped-by-bill view of one participant's details (`groupedDetails` loop in the
participant detail modal), in insertion order, before the date-descending sort
(which permutes groups but creates none). -/
def groupDetails (details : List PaymentDetail) : List GroupedDetail :=
  details.foldl (fun m d => upsertGroup d m) []

/-- Total attributed to one display name in a summary list: names are unique in the
grouping map, so summing over the (at most one) matching entry is its `totalAmount`. -/
def totalForName (l : List ParticipantSummary) (name : String) : ℚ :=
  ((l.filter (fun s => s.participantName = name)).map (fun s => s.totalAmount)).sum

/-- A record resolves to a display name under an environment: both referenced ids pass
the uuid format check, the participant row exists and carries that name, and the item
and its bill rows exist. -/
def resolvesToName (env : Env) (name : String) (s : SplitDetail) : Bool :=
  validId s.bill_item_id && validId s.participant_id &&
  (match env.participantsTable.find? (fun p => p.id = s.participant_id) with
   | none => false
   | some p =>
     (match env.itemsTable.find? (fun i => i.id = s.bill_item_id) with
      | none => false
      | some i => (env.billsTable.find? (fun b => b.id = i.bill_id)).isSome)
     && p.name = name)

/-- Whether a record resolves (to the given name) through the fetched row lists. -/
def resolvesVia (items : List ItemRow) (participants : List ParticipantRow)
    (bills : List BillRow) (name : String) (s : SplitDetail) : Bool :=
  match resolveRecord items participants bills s with
  | some (nm, _) => nm = name
  | none => false

/-- The derived reconciliation values computed per summary card. -/
structure RecoView where
  remaining : ℚ
  paidRatio : ℚ
  isFullyPaid : Bool
deriving Repr, DecidableEq

/-- The per-card derivation:
`remaining = Math.max(summary.totalAmount - paidAmount, 0)`,
`paidRatio = summary.totalAmount > 0 ? Math.min(paidAmount / summary.totalAmount, 1) : 0`,
`isFullyPaid = remaining <= 0.01 || paidRatio >= 1`. -/
def paymentReco (totalAmount paidAmount : ℚ) : RecoView :=
  let remaining := max (totalAmount - paidAmount) 0
  let paidRatio := if 0 < totalAmount then min (paidAmount / totalAmount) 1 else 0
  ⟨remaining, paidRatio, decide (remaining ≤ 1/100 ∨ 1 ≤ paidRatio)⟩

/-- The paid-amount edit regex `/^\d*(\.\d{0,2})?$/`: optional digits, then optionally a
dot followed by at most two digits. -/
def paidInputOk (v : String) : Bool :=
  let cs := v.toList
  let ds := cs.takeWhile Char.isDigit
  match cs.drop ds.length with
  | [] => true
  | '.' :: rest => rest.all Char.isDigit && rest.length ≤ 2
  | _ => false

/-- `parseFloat` on the decimal forms reachable through the paid-amount inputs
(digits, an optional dot, fraction digits; `"."` alone parses to `NaN`, modelled as
`none`). -/
def parsePaid (s : String) : Option ℚ :=
  let cs := s.toList
  let intPart := cs.takeWhile Char.isDigit
  match cs.drop intPart.length with
  | '.' :: rest =>
      let fracPart := rest.takeWhile Char.isDigit
      if intPart.isEmpty && fracPart.isEmpty then none
      else some ((natOfDigits intPart : ℚ) + (natOfDigits fracPart : ℚ) / (10 ^ fracPart.length))
  | _ => if intPart.isEmpty then none else some (natOfDigits intPart)

/-- `amount.toFixed(2)`: the amount rendered with exactly two fraction digits. -/
def toFixed2 (q : ℚ) : String :=
  let cents : ℤ := round (q * 100)
  let n := cents.natAbs
  (if cents < 0 then "-" else "") ++ toString (n / 100) ++ "." ++
    (if n % 100 < 10 then "0" else "") ++ toString (n % 100)

/-- The component's paid-amount state: the `paidAmounts` input map (name → input text)
and the `participant_payments` store (name → persisted amount). -/
structure PaidState where
  paidAmounts : List (String × String)
  store : List (String × ℚ)
deriving Repr, DecidableEq

/-- JS `Map`-like upsert on an association list keyed by the first component:
replace the first matching entry, else append. -/
def upsertAssoc {α : Type} (m : List (String × α)) (k : String) (v : α) :
    List (String × α) :=
  match m with
  | [] => [(k, v)]
  | kv :: rest => if kv.1 = k then (k, v) :: rest else kv :: upsertAssoc rest k v

/-- `persistPaidAmount`: `if (!user) return` (guest mode cannot save);
`if (!name || isNaN(amount)) return` (an empty name aborts; `isNaN` is dead over `ℚ`);
otherwise upsert into `participant_payments` with `onConflict: participant_name`. -/
def persistPaidAmount (user : Bool) (name : String) (amount : ℚ) (st : PaidState) :
    PaidState :=
  if !user then st
  else if name = "" then st
  else { st with store := upsertAssoc st.store name amount }

/-- `handlePaidChange`: `if (!user) return`; reject input failing the edit regex;
otherwise update the `paidAmounts` entry. -/
def handlePaidChange (user : Bool) (name value : String) (st : PaidState) : PaidState :=
  if !user then st
  else if !paidInputOk value then st
  else { st with paidAmounts := upsertAssoc st.paidAmounts name value }

/-- `handlePaidBlur`: `if (!user) return`; `parseFloat(paidAmounts[name] || '0')`
(a missing or empty entry is falsy and becomes `'0'`); `if (isNaN(parsed)) return`;
otherwise persist. -/
def handlePaidBlur (user : Bool) (name : String) (st : PaidState) : PaidState :=
  if !user then st
  else
    let raw := ((st.paidAmounts.find? (fun kv => kv.1 = name)).map (fun kv => kv.2)).getD ""
    let v := if raw = "" then "0" else raw
    match parsePaid v with
    | none => st
    | some q => persistPaidAmount user name q st

/-- `handleFillTotal`: `if (!user) return`; set the input text to `amount.toFixed(2)`
and persist the amount. -/
def handleFillTotal (user : Bool) (name : String) (amount : ℚ) (st : PaidState) :
    PaidState :=
  if !user then st
  else persistPaidAmount user name amount
    { st with paidAmounts := upsertAssoc st.paidAmounts name (toFixed2 amount) }

/-- `loadPaidAmounts`: read all `participant_payments` rows into the input map,
rendering each stored amount with `paid_amount.toString()` (`render` stands for the
JS number-to-string rendering); no authentication check guards this read. -/
def loadPaidAmounts (render : ℚ → String) (store : List (String × ℚ)) :
    List (String × String) :=
  store.map (fun kv => (kv.1, render kv.2))

/-- An entry of the editor's `participants` state. -/
structure EditorParticipant where
  id : String
  name : String
deriving Repr, DecidableEq

/-- An entry of the editor's `items` state (fields used by `handleSave`). -/
structure EditorItem where
  item_name : String
  unit_price : ℚ
  discount_ratio : ℚ
  discount_adjustment : ℚ
  participantIds : List String
deriving Repr, DecidableEq

/-- A surviving value of
`item.participantIds.map(pid => { const p = participants.find(p => p.id === pid); return p ? participantMap.get(p.name) : null }).filter(id => id !== null)`:
`null` (participant not found) is filtered out, but an `undefined` map lookup
(a name absent from `participantMap`) passes the `!== null` test. -/
inductive ResolvedId where
  | undef : ResolvedId
  | uid (s : String) : ResolvedId
deriving Repr, DecidableEq

/-- The participant-id resolution of `handleSave` described above. -/
def resolveParticipantIds (participants : List EditorParticipant)
    (pmap : List (String × String)) (pids : List String) : List ResolvedId :=
  pids.filterMap (fun pid =>
    match participants.find? (fun p => p.id = pid) with
    | none => none
    | some p =>
        match pmap.find? (fun kv => kv.1 = p.name) with
        | none => some ResolvedId.undef
        | some kv => some (ResolvedId.uid kv.2))

/-- A prepared `bill_items` insert row of `handleSave` (with the `participantIds` and
`shareAmount` fields it temporarily carries for the `split_details` inserts). -/
structure ItemInsert where
  item_name : String
  unit_price : ℚ
  discount_ratio : ℚ
  discount_adjustment : ℚ
  sort_order : ℕ
  participantIds : List ResolvedId
  shareAmount : ℚ
deriving Repr, DecidableEq

/-- The insert row built for one kept item at loop index `sortIndex`. -/
def mkInsert (participants : List EditorParticipant) (pmap : List (String × String))
    (sortIndex : ℕ) (item : EditorItem) : ItemInsert :=
  let pids := resolveParticipantIds participants pmap item.participantIds
  ⟨jsTrim item.item_name, item.unit_price, item.discount_ratio, item.discount_adjustment,
   sortIndex, pids,
   calculateShareAmount item.unit_price pids.length item.discount_ratio
     item.discount_adjustment⟩

/-- The item-preprocessing `for` loop of `handleSave`, from loop index `sortIndex`:
`if (!item.item_name.trim() || item.unit_price <= 0) continue`;
`if (shareCount === 0) continue` (before `totalAmount +=`);
otherwise push the insert row and add the item's adjusted price to the running total.
The loop index advances on every item, skipped or not; the running `+=` sum is
reassociated into a right fold, which is equal over `ℚ`. -/
def processSaveItemsAux (participants : List EditorParticipant)
    (pmap : List (String × String)) : ℕ → List EditorItem → List ItemInsert × ℚ
  | _, [] => ([], 0)
  | sortIndex, item :: rest =>
      let tail := processSaveItemsAux participants pmap (sortIndex + 1) rest
      if jsTrim item.item_name = "" ∨ item.unit_price ≤ 0 then tail
      else if (resolveParticipantIds participants pmap item.participantIds).length = 0 then
        tail
      else
        (mkInsert participants pmap sortIndex item :: tail.1,
         (item.unit_price * item.discount_ratio + item.discount_adjustment) + tail.2)

/-- The item-preprocessing loop of `handleSave` started at `sortIndex = 0`. -/
def processSaveItems (participants : List EditorParticipant)
    (pmap : List (String × String)) (items : List EditorItem) : List ItemInsert × ℚ :=
  processSaveItemsAux participants pmap 0 items

/-- The `split_details` rows generated from the prepared inserts: one row per
(inserted item, resolved participant id) pair, carrying the item's `shareAmount`. -/
def splitsFor (inserts : List ItemInsert) : List (ResolvedId × ℚ) :=
  inserts.flatMap (fun it => it.participantIds.map (fun pid => (pid, it.shareAmount)))

/-- The persisted contents of one bill: its `bill_items` rows, its `split_details`
rows, and the stored `total_amount`. -/
structure SavedBill where
  items : List ItemInsert
  splits : List (ResolvedId × ℚ)
  total_amount : ℚ
deriving Repr, DecidableEq

/-- The persistence effect of `handleSave` on one bill: all prior `bill_items` and
`split_details` of the bill are deleted, the freshly computed rows are inserted, and
`total_amount` is updated — the prior contents are discarded wholesale. -/
def saveBill (prior : SavedBill) (participants : List EditorParticipant)
    (pmap : List (String × String)) (items : List EditorItem) : SavedBill :=
  let r := processSaveItems participants pmap items
  let _ := prior
  ⟨r.1, splitsFor r.1, r.2⟩

/-- Whether `handleSave` keeps an item: non-empty trimmed name, positive price, and a
non-empty resolved participant list. -/
def keepsItem (participants : List EditorParticipant) (pmap : List (String × String))
    (it : EditorItem) : Bool :=
  !(jsTrim it.item_name == "") && !(decide (it.unit_price ≤ 0)) &&
  !((resolveParticipantIds participants pmap it.participantIds).length == 0)

/-- An item's adjusted price `unit_price * discount_ratio + discount_adjustment`. -/
def adjustedPrice (it : EditorItem) : ℚ :=
  it.unit_price * it.discount_ratio + it.discount_adjustment

/-- Modelled from the spec (for the refinement comparison of claim C1): the bill total
the spec prescribes — the sum of adjusted prices over all (name-non-empty,
positive-price) items, independent of participant assignment. -/
def specClaimedTotal (items : List EditorItem) : ℚ :=
  ((items.filter (fun it =>
      !(jsTrim it.item_name == "") && !(decide (it.unit_price ≤ 0)))).map adjustedPrice).sum

/-- One item of the bulk-import JSON (numeric fields may be absent). -/
structure ImportItem where
  item_name : String
  unit_price : Option ℚ
  quantity : Option ℕ
  discount_ratio : Option ℚ
  discount_adjustment : Option ℚ
  participants : List String
deriving Repr, DecidableEq

/-- JS `x || d` on an optional numeric field: `undefined` and `0` are falsy. -/
def jsOrQ (v : Option ℚ) (dflt : ℚ) : ℚ :=
  match v with
  | none => dflt
  | some x => if x = 0 then dflt else x

/-- JS `x || d` on an optional count. -/
def jsOrNat (v : Option ℕ) (dflt : ℕ) : ℕ :=
  match v with
  | none => dflt
  | some x => if x = 0 then dflt else x

/-- `(item.participants || []).map(name => participantMap.get(name.trim()) || '').filter(id => id !== '')`. -/
def resolveImportParticipants (pmap : List (String × String)) (names : List String) :
    List String :=
  names.filterMap (fun nm =>
    match pmap.find? (fun kv => kv.1 = jsTrim nm) with
    | none => none
    | some kv => if kv.2 = "" then none else some kv.2)

/-- The display name of the `i`-th expanded unit:
`quantity > 1 ? `${item.item_name} (${i + 1}/${quantity})` : item.item_name`. -/
def expandedName (item : ImportItem) (qty i : ℕ) : String :=
  if 1 < qty then
    item.item_name ++ " (" ++ toString (i + 1) ++ "/" ++ toString qty ++ ")"
  else item.item_name

/-- A prepared insert row of `handleBatchSave`. -/
structure BatchInsert where
  item_name : String
  unit_price : ℚ
  discount_ratio : ℚ
  discount_adjustment : ℚ
  sort_order : ℕ
  participantIds : List String
  shareAmount : ℚ
deriving Repr, DecidableEq

/-- The `handleBatchSave` quantity loop for one import item (`sortStart` = the value of
`sortOrderCounter` on entry; the counter advances only on push, and the resolved
participant list is fixed across the loop, so either every unit or no unit is pushed):
`for (i = 0; i < quantity; i++) { if (shareCount === 0) continue; … push … }` with the
discount adjustment applied only at `i === 0`. -/
def expandBatchItem (pmap : List (String × String)) (sortStart : ℕ)
    (item : ImportItem) : List BatchInsert :=
  let participantIds := resolveImportParticipants pmap item.participants
  let qty := jsOrNat item.quantity 1
  let price := jsOrQ item.unit_price 0
  let ratio := jsOrQ item.discount_ratio 1
  (List.range qty).filterMap (fun i =>
    if participantIds.length = 0 then none
    else
      let adj := if i = 0 then jsOrQ item.discount_adjustment 0 else 0
      some ⟨expandedName item qty i, price, ratio, adj, sortStart + i, participantIds,
            calculateShareAmount price participantIds.length ratio adj⟩)

/-- An editor line item produced by the single-bill JSON import. -/
structure ImportedEditorItem where
  id : String
  item_name : String
  unit_price : ℚ
  discount_ratio : ℚ
  discount_adjustment : ℚ
  participantIds : List String
  sort_order : ℕ
deriving Repr, DecidableEq

/-- The `handleImportJSON` single-bill quantity loop for one import item (index `index`
in the JSON, `sortStart` = the running `sortOrderCounter`): every unit is pushed,
with the discount adjustment applied only to the first (`i === 0`). -/
def expandImportItem (pmap : List (String × String)) (index sortStart : ℕ)
    (item : ImportItem) : List ImportedEditorItem :=
  let participantIds := resolveImportParticipants pmap item.participants
  let qty := jsOrNat item.quantity 1
  let price := jsOrQ item.unit_price 0
  (List.range qty).map (fun i =>
    ⟨"temp_item_" ++ toString index ++ "_" ++ toString i,
     expandedName item qty i, price, jsOrQ item.discount_ratio 1,
     (if i = 0 then jsOrQ item.discount_adjustment 0 else 0),
     participantIds, sortStart + i⟩)

/-- A trivial stand-in for `localeCompare` used to instantiate concrete examples
(any total preorder would do; the examples below never reach the fallback). -/
def lcStub : String → String → Int := fun _ _ => 0

/-- The two-bill "Alice" example environment. -/
def envEx : Env :=
  ⟨[⟨"aaaaaaaa-aaaa-aaaa-aaaa-aaaaaaaaaaaa", "Latte", "bx"⟩,
    ⟨"bbbbbbbb-bbbb-bbbb-bbbb-bbbbbbbbbbbb", "Mocha", "by"⟩],
   [⟨"11111111-1111-1111-1111-111111111111", "Alice"⟩,
    ⟨"22222222-2222-2222-2222-222222222222", "Alice"⟩],
   [⟨"bx", "Bill X", "2024-01-01"⟩, ⟨"by", "Bill Y", "2024-02-01"⟩]⟩

/-- Alice's share records: 30 in bill X, 20 in bill Y. -/
def sdEx : List SplitDetail :=
  [⟨30, "11111111-1111-1111-1111-111111111111", "aaaaaaaa-aaaa-aaaa-aaaa-aaaaaaaaaaaa"⟩,
   ⟨20, "22222222-2222-2222-2222-222222222222", "bbbbbbbb-bbbb-bbbb-bbbb-bbbbbbbbbbbb"⟩]

example :
    totalForName (loadPaymentSummary lcStub sdEx envEx).1 "Alice" = 50 ∧
    totalForName (loadPaymentSummary lcStub sdEx envEx).1 "alice" = 0 ∧
    ((loadPaymentSummary lcStub sdEx envEx).1.map
      (fun s => (s.participantName, (groupDetails s.details).length))) = [("Alice", 2)] := by
  refine ⟨?_, ?_, ?_⟩ <;>
    norm_num +decide [loadPaymentSummary, itemIdsOf, participantIdsOf, fetchedItems,
      fetchedParticipants, billIdsOf, fetchedBills, jsSetDedup, dedupAux, validId,
      sdEx, envEx, aggregateRecords, resolveRecord, upsertDetail, sortSummaries,
      List.mergeSort, totalForName, groupDetails, upsertGroup, lcStub]

def sdBadEx : List SplitDetail :=
  sdEx ++
  [⟨100, "11111111-1111-1111-1111-111111111111", "not-a-uuid"⟩,
   ⟨7, "99999999-9999-9999-9999-999999999999", "aaaaaaaa-aaaa-aaaa-aaaa-aaaaaaaaaaaa"⟩]

def cxParticipants : List EditorParticipant := [⟨"p1", "A"⟩]

def cxPmap : List (String × String) := [("A", "p1")]

def cxItems : List EditorItem := [⟨"Juice", 50, 1, 0, []⟩]

def cxImportPmap : List (String × String) := []

def cxImportItem : ImportItem := ⟨"Tea", some 10, some 2, none, none, ["A"]⟩

/-! ## Supporting lemmas -/

/-- The comparator is transitive on its non-positive cone when the locale fallback is. -/
lemma summaryCompare_trans (lc : String → String → Int)
    (h1 : ∀ a b c, lc a b ≤ 0 → lc b c ≤ 0 → lc a c ≤ 0) (a b c : String)
    (hab : summaryCompare lc a b ≤ 0) (hbc : summaryCompare lc b c ≤ 0) :
    summaryCompare lc a c ≤ 0 := by
  unfold summaryCompare at *
  cases ha : getFirstNumber a <;> cases hb : getFirstNumber b <;>
    cases hc : getFirstNumber c <;> simp [ha, hb, hc] at *
  · exact h1 a b c hab hbc
  · split_ifs at hab hbc ⊢ <;> first | omega | exact h1 a b c hab hbc

/-- The comparator is total (as a preorder) when the locale fallback is. -/
lemma summaryCompare_total (lc : String → String → Int)
    (h2 : ∀ a b, lc a b ≤ 0 ∨ lc b a ≤ 0) (a b : String) :
    summaryCompare lc a b ≤ 0 ∨ summaryCompare lc b a ≤ 0 := by
  unfold summaryCompare
  cases ha : getFirstNumber a <;> cases hb : getFirstNumber b <;> simp [ha, hb]
  · exact h2 a b
  · split_ifs <;> first | omega | exact h2 a b

lemma totalForName_nil (name : String) : totalForName [] name = 0 := rfl

lemma totalForName_cons (s : ParticipantSummary) (rest : List ParticipantSummary)
    (name : String) :
    totalForName (s :: rest) name =
      (if s.participantName = name then s.totalAmount else 0) + totalForName rest name := by
  by_cases h : s.participantName = name <;> simp [totalForName, List.filter_cons, h]

lemma totalForName_upsertDetail (m : List ParticipantSummary) (nm name : String)
    (d : PaymentDetail) :
    totalForName (upsertDetail m nm d) name =
      totalForName m name + (if nm = name then d.shareAmount else 0) := by
  induction m with
  | nil =>
      by_cases h : nm = name <;> simp [upsertDetail, totalForName, h]
  | cons s rest ih =>
      by_cases hs : s.participantName = nm
      · by_cases h : nm = name
        · subst h
          simp [upsertDetail, hs, totalForName_cons, hs]
          ring
        · have hsn : ¬ s.participantName = name := by rw [hs]; exact h
          simp [upsertDetail, hs, totalForName_cons, hsn, h]
      · simp [upsertDetail, hs, totalForName_cons, ih]
        ring

lemma mem_dedupAux (a : String) :
    ∀ (l seen : List String), a ∈ dedupAux seen l ↔ a ∈ l ∧ a ∉ seen := by
  intro l
  induction l with
  | nil => simp [dedupAux]
  | cons x xs ih =>
      intro seen
      by_cases hx : seen.contains x
      · have hxm : x ∈ seen := List.elem_iff.mp hx
        simp only [dedupAux, if_pos hx, ih, List.mem_cons]
        constructor
        · rintro ⟨h1, h2⟩; exact ⟨Or.inr h1, h2⟩
        · rintro ⟨h1 | h1, h2⟩
          · exact absurd (h1 ▸ hxm) h2
          · exact ⟨h1, h2⟩
      · have hxm : x ∉ seen := fun h => hx (List.elem_iff.mpr h)
        simp only [dedupAux, if_neg hx, List.mem_cons, ih (x :: seen)]
        constructor
        · rintro (rfl | ⟨h1, h2⟩) <;> tauto
        · rintro ⟨rfl | h1, h2⟩ <;> tauto

lemma mem_jsSetDedup (a : String) (l : List String) :
    a ∈ jsSetDedup l ↔ a ∈ l := by
  simp [jsSetDedup, mem_dedupAux]

lemma resolveRecord_shareAmount (items : List ItemRow) (participants : List ParticipantRow)
    (bills : List BillRow) (s : SplitDetail) (nm : String) (d : PaymentDetail)
    (h : resolveRecord items participants bills s = some (nm, d)) :
    d.shareAmount = s.share_amount := by
  simp only [resolveRecord, Option.bind_eq_bind, Option.pure_def,
    Option.bind_eq_some, Option.some_inj] at h
  obtain ⟨p, hp, i, hi, b, hb, hpure⟩ := h
  cases hpure
  rfl

lemma totalForName_aggregateRecords (items : List ItemRow)
    (participants : List ParticipantRow) (bills : List BillRow) (name : String) :
    ∀ (sd : List SplitDetail) (m : List ParticipantSummary),
    totalForName (sd.foldl (fun m s =>
        match resolveRecord items participants bills s with
        | none => m
        | some (nm, d) => upsertDetail m nm d) m) name =
      totalForName m name +
      ((sd.filter (resolvesVia items participants bills name)).map
        (fun s => s.share_amount)).sum := by
  intro sd
  induction sd with
  | nil => intro m; simp
  | cons s rest ih =>
      intro m
      simp only [List.foldl_cons, List.filter_cons]
      cases hres : resolveRecord items participants bills s with
      | none => simp [resolvesVia, hres, ih]
      | some nd =>
          obtain ⟨nm, d⟩ := nd
          have hd : d.shareAmount = s.share_amount :=
            resolveRecord_shareAmount _ _ _ _ _ _ hres
          by_cases hnm : nm = name
          · simp [resolvesVia, hres, hnm, ih, totalForName_upsertDetail, hd]
            ring
          · simp [resolvesVia, hres, hnm, ih, totalForName_upsertDetail]

lemma find?_filter_of_imp {α : Type} (p q : α → Bool)
    (h : ∀ x, q x = true → p x = true) (l : List α) :
    (l.filter p).find? q = l.find? q := by
  induction l with
  | nil => simp
  | cons x xs ih =>
      by_cases hq : q x = true
      · rw [List.filter_cons, if_pos (h x hq), List.find?_cons_of_pos _ hq,
          List.find?_cons_of_pos _ hq]
      · by_cases hp : p x = true
        · rw [List.filter_cons, if_pos hp, List.find?_cons_of_neg _ hq,
            List.find?_cons_of_neg _ hq, ih]
        · rw [List.filter_cons, if_neg hp, List.find?_cons_of_neg _ hq, ih]

lemma find?_filter_of_none {α : Type} (p q : α → Bool)
    (h : ∀ x, q x = true → p x = false) (l : List α) :
    (l.filter p).find? q = none := by
  induction l with
  | nil => simp
  | cons x xs ih =>
      by_cases hq : q x = true
      · rw [List.filter_cons, if_neg (by simp [h x hq]), ih]
      · by_cases hp : p x = true
        · rw [List.filter_cons, if_pos hp, List.find?_cons_of_neg _ hq, ih]
        · rw [List.filter_cons, if_neg hp, ih]

lemma contains_itemIdsOf (sd : List SplitDetail) (s : SplitDetail) (hs : s ∈ sd) :
    (itemIdsOf sd).contains s.bill_item_id = validId s.bill_item_id := by
  cases hv : validId s.bill_item_id
  · refine (Bool.not_eq_true _).mp (fun hc => ?_)
    have := List.elem_iff.mp hc
    simp [itemIdsOf, List.mem_filter, hv] at this
  · refine List.elem_iff.mpr ?_
    refine List.mem_filter.mpr ⟨(mem_jsSetDedup _ _).mpr ?_, hv⟩
    exact List.mem_map_of_mem _ hs

lemma contains_participantIdsOf (sd : List SplitDetail) (s : SplitDetail) (hs : s ∈ sd) :
    (participantIdsOf sd).contains s.participant_id = validId s.participant_id := by
  cases hv : validId s.participant_id
  · refine (Bool.not_eq_true _).mp (fun hc => ?_)
    have := List.elem_iff.mp hc
    simp [participantIdsOf, List.mem_filter, hv] at this
  · refine List.elem_iff.mpr ?_
    refine List.mem_filter.mpr ⟨(mem_jsSetDedup _ _).mpr ?_, hv⟩
    exact List.mem_map_of_mem _ hs

lemma resolvesVia_fetched (env : Env) (sd : List SplitDetail) (s : SplitDetail)
    (hs : s ∈ sd) (name : String) :
    resolvesVia (fetchedItems env sd) (fetchedParticipants env sd) (fetchedBills env sd)
      name s = resolvesToName env name s := by
  cases hvp : validId s.participant_id with
  | false =>
      have hnone : (fetchedParticipants env sd).find?
          (fun p => p.id = s.participant_id) = none := by
        apply find?_filter_of_none
        intro x hx
        have hxi : x.id = s.participant_id := by simpa using hx
        rw [hxi, contains_participantIdsOf sd s hs, hvp]
      simp [resolvesVia, resolveRecord, hnone, resolvesToName, hvp]
  | true =>
      have hpf : (fetchedParticipants env sd).find? (fun p => p.id = s.participant_id) =
          env.participantsTable.find? (fun p => p.id = s.participant_id) := by
        apply find?_filter_of_imp
        intro x hx
        have hxi : x.id = s.participant_id := by simpa using hx
        rw [hxi, contains_participantIdsOf sd s hs, hvp]
      cases hvi : validId s.bill_item_id with
      | false =>
          have hnone : (fetchedItems env sd).find?
              (fun i => i.id = s.bill_item_id) = none := by
            apply find?_filter_of_none
            intro x hx
            have hxi : x.id = s.bill_item_id := by simpa using hx
            rw [hxi, contains_itemIdsOf sd s hs, hvi]
          cases hp : env.participantsTable.find? (fun p => p.id = s.participant_id) <;>
            simp [resolvesVia, resolveRecord, hpf, hp, hnone, resolvesToName, hvp, hvi]
      | true =>
          have hif : (fetchedItems env sd).find? (fun i => i.id = s.bill_item_id) =
              env.itemsTable.find? (fun i => i.id = s.bill_item_id) := by
            apply find?_filter_of_imp
            intro x hx
            have hxi : x.id = s.bill_item_id := by simpa using hx
            rw [hxi, contains_itemIdsOf sd s hs, hvi]
          cases hp : env.participantsTable.find? (fun p => p.id = s.participant_id) with
          | none => simp [resolvesVia, resolveRecord, hpf, hp, resolvesToName, hvp, hvi]
          | some p =>
              cases hi : env.itemsTable.find? (fun i => i.id = s.bill_item_id) with
              | none => simp [resolvesVia, resolveRecord, hpf, hif, hp, hi,
                  resolvesToName, hvp, hvi]
              | some i =>
                  have him : i ∈ fetchedItems env sd :=
                    List.mem_of_find?_eq_some (by rw [hif, hi])
                  have hbf : (fetchedBills env sd).find? (fun b => b.id = i.bill_id) =
                      env.billsTable.find? (fun b => b.id = i.bill_id) := by
                    apply find?_filter_of_imp
                    intro x hx
                    have hxi : x.id = i.bill_id := by simpa using hx
                    rw [hxi]
                    refine List.elem_iff.mpr ?_
                    exact (mem_jsSetDedup _ _).mpr (List.mem_map_of_mem _ him)
                  cases hb : env.billsTable.find? (fun b => b.id = i.bill_id) <;>
                    simp [resolvesVia, resolveRecord, hpf, hif, hbf, hp, hi, hb,
                      resolvesToName, hvp, hvi]

lemma totalForName_sortSummaries (lc : String → String → Int)
    (l : List ParticipantSummary) (name : String) :
    totalForName (sortSummaries lc l) name = totalForName l name := by
  unfold totalForName sortSummaries
  exact (((List.mergeSort_perm l _).filter _).map _).sum_eq

lemma totalForName_loadPaymentSummary (lc : String → String → Int)
    (sd : List SplitDetail) (env : Env) (name : String) :
    totalForName (loadPaymentSummary lc sd env).1 name =
      ((sd.filter (resolvesToName env name)).map (fun s => s.share_amount)).sum := by
  unfold loadPaymentSummary
  by_cases h0 : sd.isEmpty
  · rw [if_pos h0]
    obtain rfl := List.isEmpty_iff.mp h0
    simp [totalForName]
  · rw [if_neg h0]
    by_cases h1 : (itemIdsOf sd).isEmpty || (participantIdsOf sd).isEmpty
    · rw [if_pos h1]
      have hnone : ∀ s ∈ sd, ¬ resolvesToName env name s = true := by
        intro s hsd hres
        have hvi : validId s.bill_item_id = true := by
          simp only [resolvesToName, Bool.and_eq_true] at hres
          exact hres.1.1
        have hvp : validId s.participant_id = true := by
          simp only [resolvesToName, Bool.and_eq_true] at hres
          exact hres.1.2
        rcases Bool.or_eq_true _ _ |>.mp h1 with he | he
        · have : s.bill_item_id ∈ itemIdsOf sd := by
            refine List.mem_filter.mpr ⟨(mem_jsSetDedup _ _).mpr ?_, hvi⟩
            exact List.mem_map_of_mem _ hsd
          rw [List.isEmpty_iff.mp he] at this
          exact absurd this (List.not_mem_nil _)
        · have : s.participant_id ∈ participantIdsOf sd := by
            refine List.mem_filter.mpr ⟨(mem_jsSetDedup _ _).mpr ?_, hvp⟩
            exact List.mem_map_of_mem _ hsd
          rw [List.isEmpty_iff.mp he] at this
          exact absurd this (List.not_mem_nil _)
      rw [List.filter_eq_nil_iff.mpr hnone]
      simp [totalForName]
    · rw [if_neg h1]
      dsimp only
      rw [totalForName_sortSummaries]
      have hagg := totalForName_aggregateRecords (fetchedItems env sd)
        (fetchedParticipants env sd) (fetchedBills env sd) name sd []
      rw [aggregateRecords, hagg, totalForName_nil, zero_add]
      congr 1
      apply congrArg
      apply List.filter_congr
      intro s hsd
      exact resolvesVia_fetched env sd s hsd name

lemma processSaveItemsAux_eq (ps : List EditorParticipant) (pm : List (String × String)) :
    ∀ (k : ℕ) (items : List EditorItem),
    processSaveItemsAux ps pm k items =
      (((List.enumFrom k items).filter (fun x => keepsItem ps pm x.2)).map
        (fun x => mkInsert ps pm x.1 x.2),
       ((items.filter (keepsItem ps pm)).map adjustedPrice).sum) := by
  intro k items
  induction items generalizing k with
  | nil => simp [processSaveItemsAux]
  | cons it rest ih =>
      simp only [processSaveItemsAux, List.enumFrom_cons, List.filter_cons]
      by_cases h1 : jsTrim it.item_name = "" ∨ it.unit_price ≤ 0
      · have hk : keepsItem ps pm it = false := by
          rcases h1 with h | h <;> simp [keepsItem, h]
        rw [if_pos h1, ih]
        simp [hk]
      · by_cases h2 : (resolveParticipantIds ps pm it.participantIds).length = 0
        · have hk : keepsItem ps pm it = false := by
            simp [keepsItem, h2]
          rw [if_neg h1, if_pos h2, ih]
          simp [hk]
        · have hk : keepsItem ps pm it = true := by
            push_neg at h1
            simp [keepsItem, h1.1, h1.2, h2]
          rw [if_neg h1, if_neg h2, ih]
          simp [hk, adjustedPrice]

lemma filterMap_some_eq_map {α β : Type} (f : α → β) (l : List α) :
    l.filterMap (fun x => some (f x)) = l.map f := by
  rw [← List.filterMap_eq_map]
  rfl

/-! ## Claim theorems -/

/-- C2: for every `shareCount > 0` the share calculator returns exactly
`(unitPrice * discountRatio + discountAdjustment) / shareCount`, so the returned share
times `shareCount` equals the item's adjusted price (exactly, over `ℚ`, hence within any
floating-point tolerance); in particular `unit_price = 100`, `shareCount = 2`,
`discount_ratio = 0.9`, `discount_adjustment = 5` yields `47.5`. -/
theorem calculateShareAmount_pos_spec (p r a : ℚ) (n : ℕ) (hn : 0 < n) :
    calculateShareAmount p n r a = (p * r + a) / (n : ℚ) ∧
    calculateShareAmount p n r a * (n : ℚ) = p * r + a ∧
    calculateShareAmount 100 2 (9/10) 5 = 95/2 := by
  have hne : (n : ℚ) ≠ 0 := by exact_mod_cast Nat.pos_iff_ne_zero.mp hn
  refine ⟨?_, ?_, by norm_num [calculateShareAmount]⟩
  · simp [calculateShareAmount, Nat.pos_iff_ne_zero.mp hn]
  · simp only [calculateShareAmount, if_neg (Nat.pos_iff_ne_zero.mp hn)]
    field_simp

/-- Witness for C2 at `p = 100`, `n = 2`, `r = 9/10`, `a = 5`. -/
theorem calculateShareAmount_pos_spec_witness :
    calculateShareAmount 100 2 (9/10) 5 = (100 * (9/10) + 5) / (2 : ℚ) ∧
    calculateShareAmount 100 2 (9/10) 5 * (2 : ℚ) = 100 * (9/10) + 5 ∧
    calculateShareAmount 100 2 (9/10) 5 = 95/2 := by
  have h := calculateShareAmount_pos_spec 100 (9/10) 5 2 (by norm_num)
  exact_mod_cast h

/-- C3: with `shareCount = 0` the share calculator returns `0` for every unit price,
discount ratio and discount adjustment; the `if shareCount = 0` test short-circuits,
so the division branch is never taken and no division by zero occurs. -/
theorem calculateShareAmount_zero_spec (p r a : ℚ) :
    calculateShareAmount p 0 r a = 0 := by
  simp [calculateShareAmount]

/-- C5: the per-name summary list is sorted ascending by the integer extracted from each
name — leading digits before a `-` separator, else the first integer anywhere, else
unbounded/last (`none`): two names with distinct extracted integers compare by those
integers; a name with an integer always compares before a name without one; names with
equal or absent integers fall back to the locale comparison; with a transitive and total
locale fallback the sorted list is pairwise ordered by the comparator; and
`"8 - Cafe"` sorts before `"10 - Deli"` sorts before `"Zeta"`. -/
theorem summariesSort_spec :
    (∀ (lc : String → String → Int) (a b : String) (m n : ℕ),
        getFirstNumber a = some m → getFirstNumber b = some n → m < n →
        summaryCompare lc a b < 0) ∧
    (∀ (lc : String → String → Int) (a b : String) (m : ℕ),
        getFirstNumber a = some m → getFirstNumber b = none →
        summaryCompare lc a b = -1) ∧
    (∀ (lc : String → String → Int) (a b : String) (m : ℕ),
        getFirstNumber a = none → getFirstNumber b = some m →
        summaryCompare lc a b = 1) ∧
    (∀ (lc : String → String → Int) (a b : String),
        getFirstNumber a = getFirstNumber b → summaryCompare lc a b = lc a b) ∧
    (∀ (lc : String → String → Int),
        (∀ a b c, lc a b ≤ 0 → lc b c ≤ 0 → lc a c ≤ 0) →
        (∀ a b, lc a b ≤ 0 ∨ lc b a ≤ 0) →
        ∀ l : List ParticipantSummary, (sortSummaries lc l).Pairwise
          (fun s t => summaryCompare lc s.participantName t.participantName ≤ 0)) ∧
    getFirstNumber "8 - Cafe" = some 8 ∧
    getFirstNumber "10 - Deli" = some 10 ∧
    getFirstNumber "Zeta" = none ∧
    (sortSummaries lcStub [⟨"Zeta", 1, []⟩, ⟨"10 - Deli", 2, []⟩, ⟨"8 - Cafe", 3, []⟩]).map
        (fun s => s.participantName) = ["8 - Cafe", "10 - Deli", "Zeta"] := by
  refine ⟨?_, ?_, ?_, ?_, ?_, by decide, by decide, by decide, ?_⟩
  · intro lc a b m n ha hb hmn
    have hne : (m : Int) - n ≠ 0 := by omega
    simp only [summaryCompare, ha, hb, if_pos hne]
    omega
  · intro lc a b m ha hb
    simp [summaryCompare, ha, hb]
  · intro lc a b m ha hb
    simp [summaryCompare, ha, hb]
  · intro lc a b h
    cases hb : getFirstNumber b with
    | none => simp [summaryCompare, h.trans hb, hb]
    | some n => simp [summaryCompare, h.trans hb, hb]
  · intro lc h1 h2 l
    have hs := @List.sorted_mergeSort ParticipantSummary
      (fun s t : ParticipantSummary =>
        decide (summaryCompare lc s.participantName t.participantName ≤ 0))
      (fun a b c hab hbc => by
        simp only [decide_eq_true_eq] at *
        exact summaryCompare_trans lc h1 _ _ _ hab hbc)
      (fun a b => by
        simp only [Bool.or_eq_true, decide_eq_true_eq]
        exact summaryCompare_total lc h2 _ _) l
    exact hs.imp (fun h => by simpa using h)
  · norm_num +decide [sortSummaries, List.mergeSort, summaryCompare, lcStub]

/-- Witness for C5 at the spec's example names, with the trivial locale fallback. -/
theorem summariesSort_spec_witness :
    summaryCompare lcStub "8 - Cafe" "10 - Deli" < 0 ∧
    summaryCompare lcStub "8 - Cafe" "Zeta" = -1 ∧
    summaryCompare lcStub "Zeta" "8 - Cafe" = 1 ∧
    summaryCompare lcStub "Zeta" "Zeta" = lcStub "Zeta" "Zeta" ∧
    (sortSummaries lcStub [⟨"Zeta", 1, []⟩]).Pairwise
      (fun s t => summaryCompare lcStub s.participantName t.participantName ≤ 0) := by
  obtain ⟨h1, h2, h3, h4, h5, -⟩ := summariesSort_spec
  exact ⟨h1 lcStub _ _ 8 10 (by decide) (by decide) (by decide),
         h2 lcStub _ _ 8 (by decide) (by decide),
         h3 lcStub _ _ 8 (by decide) (by decide),
         h4 lcStub _ _ (by decide),
         h5 lcStub (fun a b c _ _ => by simp [lcStub]) (fun a b => by simp [lcStub]) _⟩

/-- C6: for a non-negative paid amount (every in-app paid value parses to one, last
conjunct), the derived `remaining` is `max(total - paid, 0)` and never negative; the
derived `paidRatio` equals `paid / total` clamped to `[0, 1]` (in particular `0` when
`total = 0`, where the clamp of the zero-valued division also yields `0`), always lies
in `[0, 1]`; and the fully-paid state holds exactly when `remaining ≤ 0.01` or
`paidRatio ≥ 1`. -/
theorem paymentReco_spec (total paid : ℚ) (hp : 0 ≤ paid) :
    (paymentReco total paid).remaining = max (total - paid) 0 ∧
    0 ≤ (paymentReco total paid).remaining ∧
    (paymentReco total paid).paidRatio = max (min (paid / total) 1) 0 ∧
    (total = 0 → (paymentReco total paid).paidRatio = 0) ∧
    0 ≤ (paymentReco total paid).paidRatio ∧ (paymentReco total paid).paidRatio ≤ 1 ∧
    ((paymentReco total paid).isFullyPaid = true ↔
      (paymentReco total paid).remaining ≤ 1/100 ∨ 1 ≤ (paymentReco total paid).paidRatio) ∧
    (∀ v q, parsePaid v = some q → 0 ≤ q) := by
  have hratio : (paymentReco total paid).paidRatio = max (min (paid / total) 1) 0 := by
    by_cases ht : 0 < total
    · have h0 : 0 ≤ paid / total := div_nonneg hp ht.le
      simp only [paymentReco, if_pos ht]
      rw [max_eq_left (le_min h0 zero_le_one)]
    · simp only [paymentReco, if_neg ht]
      rcases eq_or_lt_of_le (not_lt.mp ht) with h0 | hneg
      · rw [h0]
        simp
      · have : paid / total ≤ 0 := div_nonpos_of_nonneg_of_nonpos hp hneg.le
        rw [min_eq_left (this.trans zero_le_one), max_eq_right this]
  refine ⟨rfl, le_max_right _ _, hratio, ?_, ?_, ?_, ?_, ?_⟩
  · intro h0
    simp [paymentReco, h0]
  · rw [hratio]; exact le_max_right _ _
  · rw [hratio]
    exact max_le (min_le_right _ _) zero_le_one
  · simp [paymentReco]
  · intro v q h
    simp only [parsePaid] at h
    split at h
    · split at h
      · exact absurd h (by simp)
      · rw [Option.some_inj] at h
        subst h
        positivity
    · split at h
      · exact absurd h (by simp)
      · rw [Option.some_inj] at h
        subst h
        positivity

/-- Witness for C6 at the spec's example `paidAmount = 50`, `totalAmount = 50`. -/
theorem paymentReco_spec_witness :
    (paymentReco 50 50).remaining = max ((50:ℚ) - 50) 0 ∧
    (paymentReco 50 50).isFullyPaid = true := by
  have h := paymentReco_spec 50 50 (by norm_num)
  refine ⟨h.1, h.2.2.2.2.2.2.1.mpr (Or.inl ?_)⟩
  rw [h.1]
  norm_num

/-- C7: a guest (unauthenticated, `user = false`) caller leaves the paid-amount state
and the `participant_payments` store unchanged through every mutation path — edit
(`handlePaidChange`), blur-commit (`handlePaidBlur`), fill-to-total
(`handleFillTotal`) and direct persist (`persistPaidAmount`) — while the unguarded
read (`loadPaidAmounts`) returns the same data after any such attempted write. -/
theorem guest_paid_mutations_noop (name value : String) (amount : ℚ) (st : PaidState)
    (render : ℚ → String) :
    handlePaidChange false name value st = st ∧
    handlePaidBlur false name st = st ∧
    handleFillTotal false name amount st = st ∧
    persistPaidAmount false name amount st = st ∧
    loadPaidAmounts render (handlePaidChange false name value st).store =
      loadPaidAmounts render st.store ∧
    loadPaidAmounts render (handlePaidBlur false name st).store =
      loadPaidAmounts render st.store ∧
    loadPaidAmounts render (handleFillTotal false name amount st).store =
      loadPaidAmounts render st.store := by
  simp [handlePaidChange, handlePaidBlur, handleFillTotal, persistPaidAmount]

/-- C4: cross-bill aggregation groups share records by the participant's display name
under case-sensitive exact string match, and merging per-name totals of separately
aggregated record sets equals aggregating their concatenation directly; in the two-bill
example, "Alice" (30 in bill X, 20 in bill Y) totals 50 with two detail groups, while
"alice" totals 0. -/
theorem aggregation_name_merge (lc : String → String → Int) (env : Env)
    (rAB rC : List SplitDetail) (name : String) :
    totalForName (loadPaymentSummary lc (rAB ++ rC) env).1 name =
      totalForName (loadPaymentSummary lc rAB env).1 name +
      totalForName (loadPaymentSummary lc rC env).1 name ∧
    totalForName (loadPaymentSummary lcStub sdEx envEx).1 "Alice" = 50 ∧
    totalForName (loadPaymentSummary lcStub sdEx envEx).1 "alice" = 0 ∧
    ((loadPaymentSummary lcStub sdEx envEx).1.map
      (fun s => (s.participantName, (groupDetails s.details).length))) = [("Alice", 2)] := by
  refine ⟨?_, ?_, ?_, ?_⟩
  · rw [totalForName_loadPaymentSummary, totalForName_loadPaymentSummary,
      totalForName_loadPaymentSummary, List.filter_append, List.map_append,
      List.sum_append]
  all_goals
    norm_num +decide [loadPaymentSummary, itemIdsOf, participantIdsOf, fetchedItems,
      fetchedParticipants, billIdsOf, fetchedBills, jsSetDedup, dedupAux, validId,
      sdEx, envEx, aggregateRecords, resolveRecord, upsertDetail, sortSummaries,
      List.mergeSort, totalForName, groupDetails, upsertGroup, lcStub]

/-- C8: per-name totals of the aggregation equal the sum over exactly the resolvable
records, so every record whose referenced item or participant id fails the uuid format
check, or whose participant, item, or bill row cannot be found, is silently skipped and
the (total) aggregation never aborts; concretely, adding a malformed-id record and a
dangling-participant record to the two-bill example leaves Alice's total at 50. -/
theorem aggregation_skips_unresolvable (lc : String → String → Int)
    (sd : List SplitDetail) (env : Env) (name : String) :
    totalForName (loadPaymentSummary lc sd env).1 name =
      ((sd.filter (resolvesToName env name)).map (fun s => s.share_amount)).sum ∧
    (∀ s : SplitDetail, validId s.bill_item_id = false →
      resolvesToName env name s = false) ∧
    (∀ s : SplitDetail, validId s.participant_id = false →
      resolvesToName env name s = false) ∧
    (∀ s : SplitDetail,
      env.participantsTable.find? (fun p => p.id = s.participant_id) = none →
      resolvesToName env name s = false) ∧
    totalForName (loadPaymentSummary lcStub sdBadEx envEx).1 "Alice" = 50 := by
  refine ⟨totalForName_loadPaymentSummary lc sd env name, ?_, ?_, ?_, ?_⟩
  · intro s h
    simp [resolvesToName, h]
  · intro s h
    simp [resolvesToName, h]
  · intro s h
    simp [resolvesToName, h]
  · norm_num +decide [loadPaymentSummary, itemIdsOf, participantIdsOf, fetchedItems,
      fetchedParticipants, billIdsOf, fetchedBills, jsSetDedup, dedupAux, validId,
      sdBadEx, sdEx, envEx, aggregateRecords, resolveRecord, upsertDetail, sortSummaries,
      List.mergeSort, totalForName, lcStub]

/-- Witness for C8 at three concrete unresolvable records. -/
theorem aggregation_skips_unresolvable_witness :
    resolvesToName envEx "Alice" ⟨5, "11111111-1111-1111-1111-111111111111", "bad"⟩ = false ∧
    resolvesToName envEx "Alice" ⟨5, "bad", "aaaaaaaa-aaaa-aaaa-aaaa-aaaaaaaaaaaa"⟩ = false ∧
    resolvesToName envEx "Alice"
      ⟨5, "99999999-9999-9999-9999-999999999999",
       "aaaaaaaa-aaaa-aaaa-aaaa-aaaaaaaaaaaa"⟩ = false := by
  obtain ⟨-, h2, h3, h4, -⟩ := aggregation_skips_unresolvable lcStub sdEx envEx "Alice"
  exact ⟨h2 _ (by decide), h3 _ (by decide), h4 _ (by decide)⟩

/-- Counterexample to C1 as stated: a bill with a single name-non-empty, positive-price
item (price 50, ratio 1, adjustment 0) assigned to zero participants persists
`total_amount = 0`, not the 50 the claim requires — `if (shareCount === 0) continue`
precedes `totalAmount +=` in `handleSave`. -/
theorem billTotal_counterexample :
    (processSaveItems cxParticipants cxPmap cxItems).2 = 0 ∧
    specClaimedTotal cxItems = 50 ∧
    (processSaveItems cxParticipants cxPmap cxItems).2 ≠ specClaimedTotal cxItems := by
  refine ⟨?h1, ?h2, ?_⟩ <;>
    norm_num +decide [processSaveItems, processSaveItemsAux, resolveParticipantIds,
      specClaimedTotal, jsTrim, adjustedPrice, cxParticipants, cxPmap, cxItems]

/-- C1 (amended): the persisted `total_amount` equals the sum of
`unit_price * discount_ratio + discount_adjustment` over the bill's line items that have
a non-empty trimmed name, positive price, AND a non-empty resolved assigned-participant
list; an item with zero assigned participants contributes nothing, and removing all
participants from an item removes exactly its contribution (the total is as if the item
were deleted). -/
theorem billTotal_amended (ps : List EditorParticipant) (pm : List (String × String))
    (items : List EditorItem) :
    (processSaveItems ps pm items).2 =
      ((items.filter (keepsItem ps pm)).map adjustedPrice).sum ∧
    (∀ (pre post : List EditorItem) (it : EditorItem),
      (processSaveItems ps pm (pre ++ { it with participantIds := ([] : List String) } :: post)).2 =
        (processSaveItems ps pm (pre ++ post)).2) := by
  constructor
  · rw [processSaveItems, processSaveItemsAux_eq]
  · intro pre post it
    have hk : keepsItem ps pm { it with participantIds := ([] : List String) } = false := by
      simp [keepsItem, resolveParticipantIds]
    rw [processSaveItems, processSaveItemsAux_eq, processSaveItems, processSaveItemsAux_eq]
    simp [List.filter_append, List.filter_cons, hk]

/-- C10: a line item whose resolved assigned-participant set is empty is not persisted
at all: the saved bill is independent of its prior contents (delete-then-insert), its
`bill_items` rows are exactly the kept (name-non-empty, positive-price, participant-
non-empty) items, every persisted row has a non-empty participant list, the
`split_details` rows are generated only from persisted rows, and the stored
`total_amount` sums only the kept items. -/
theorem emptyParticipants_item_dropped (prior prior' : SavedBill)
    (ps : List EditorParticipant) (pm : List (String × String)) (items : List EditorItem) :
    saveBill prior ps pm items = saveBill prior' ps pm items ∧
    (saveBill prior ps pm items).items =
      ((List.enumFrom 0 items).filter (fun x => keepsItem ps pm x.2)).map
        (fun x => mkInsert ps pm x.1 x.2) ∧
    (saveBill prior ps pm items).items.all
      (fun ins => !(ins.participantIds == [])) = true ∧
    (saveBill prior ps pm items).splits = splitsFor (saveBill prior ps pm items).items ∧
    (saveBill prior ps pm items).total_amount =
      ((items.filter (keepsItem ps pm)).map adjustedPrice).sum := by
  refine ⟨rfl, ?_, ?_, rfl, ?_⟩
  · rw [saveBill]
    simp only [processSaveItems, processSaveItemsAux_eq]
  · rw [saveBill]
    simp only [processSaveItems, processSaveItemsAux_eq]
    rw [List.all_eq_true]
    intro ins hins
    rw [List.mem_map] at hins
    obtain ⟨x, hx, rfl⟩ := hins
    rw [List.mem_filter] at hx
    have h3 := hx.2
    simp only [keepsItem, Bool.and_eq_true, Bool.not_eq_true', beq_eq_false_iff_ne,
      ne_eq] at h3
    have hne : resolveParticipantIds ps pm x.2.participantIds ≠ [] := by
      intro h
      exact h3.2 (by rw [h]; rfl)
    simp [mkInsert, hne]
  · rw [saveBill]
    simp only [processSaveItems, processSaveItemsAux_eq]

/-- Counterexample to C9 as stated: in the multi-bill batch path, an item with
`quantity = 2` whose participant list resolves to no ids expands to zero LineItems,
not two — `if (shareCount === 0) continue` sits inside the quantity loop of
`handleBatchSave`. -/
theorem bulkImport_counterexample :
    jsOrNat cxImportItem.quantity 1 = 2 ∧
    expandBatchItem cxImportPmap 0 cxImportItem = [] ∧
    (expandBatchItem cxImportPmap 0 cxImportItem).length ≠ 2 := by
  refine ⟨by decide, ?_, ?_⟩ <;>
    simp +decide [expandBatchItem, resolveImportParticipants, cxImportPmap, cxImportItem,
      jsOrNat, jsTrim]

/-- C9 (amended): the single-bill JSON import expands every item into exactly
`quantity` (treating absent or zero as 1) LineItems, each one unit at the same
`unit_price` and `discount_ratio`, with the item's `discount_adjustment` on the first
expanded unit and 0 on all later units (so a quantity-1 item yields one LineItem with
its adjustment intact); the multi-bill batch path does the same only when the item's
resolved participant list is non-empty, and produces no LineItems when it is empty. -/
theorem bulkImport_expansion (pmap : List (String × String)) (index sortStart : ℕ)
    (item : ImportItem) :
    (expandImportItem pmap index sortStart item).length = jsOrNat item.quantity 1 ∧
    ((expandImportItem pmap index sortStart item).map
        (fun e => (e.unit_price, e.discount_ratio, e.discount_adjustment)) =
      (List.range (jsOrNat item.quantity 1)).map
        (fun i => (jsOrQ item.unit_price 0, jsOrQ item.discount_ratio 1,
                   if i = 0 then jsOrQ item.discount_adjustment 0 else 0))) ∧
    (resolveImportParticipants pmap item.participants ≠ [] →
      (expandBatchItem pmap sortStart item).length = jsOrNat item.quantity 1 ∧
      (expandBatchItem pmap sortStart item).map
          (fun e => (e.unit_price, e.discount_ratio, e.discount_adjustment)) =
        (List.range (jsOrNat item.quantity 1)).map
          (fun i => (jsOrQ item.unit_price 0, jsOrQ item.discount_ratio 1,
                     if i = 0 then jsOrQ item.discount_adjustment 0 else 0))) ∧
    (resolveImportParticipants pmap item.participants = [] →
      expandBatchItem pmap sortStart item = []) := by
  refine ⟨?_, ?_, ?_, ?_⟩
  · simp [expandImportItem]
  · simp [expandImportItem, List.map_map]
  · intro h
    have hlen : ¬ (resolveImportParticipants pmap item.participants).length = 0 := by
      simpa [List.length_eq_zero] using h
    constructor
    · simp [expandBatchItem, hlen, filterMap_some_eq_map]
    · simp [expandBatchItem, hlen, filterMap_some_eq_map, List.map_map]
  · intro h
    simp [expandBatchItem, h]

/-- Witness for C9: a quantity-2 item with a resolvable participant expands to 2 units
in the batch path; the same item with no resolvable participant expands to none. -/
theorem bulkImport_expansion_witness :
    (expandBatchItem [("A", "p1")] 0 ⟨"Tea", some 10, some 2, none, some 4, ["A"]⟩).length =
      jsOrNat (some 2) 1 ∧
    expandBatchItem [] 0 ⟨"Tea", some 10, some 2, none, some 4, ["A"]⟩ = [] := by
  obtain ⟨-, -, h3, h4⟩ :=
    bulkImport_expansion [("A", "p1")] 0 0 ⟨"Tea", some 10, some 2, none, some 4, ["A"]⟩
  obtain ⟨-, -, -, h4'⟩ :=
    bulkImport_expansion [] 0 0 ⟨"Tea", some 10, some 2, none, some 4, ["A"]⟩
  exact ⟨(h3 (by decide)).1, h4' (by decide)⟩

end CloudSplit
